import Mathlib

/-!
Shallow embedding of `exporter/prometheusexporter/accumulator.go`.

The pdata types are modelled by plain Lean structures carrying exactly the
fields the accumulator reads or writes.  `sync.Map` is modelled by an
association list with `storeLoad` / `storePut`; wall-clock times
(`time.Time`) are `Int`, datapoint timestamps (`pdata.Timestamp`, uint64
nanoseconds) are `Nat`, and `t1.Before(t2)` / `t1.After(t2)` are `<` / `>`.
pdata's `AttributeMap.Sort()` sorts the underlying attribute list in place;
this mutation is made explicit: every per-datapoint step returns the
datapoint with its attribute list replaced by the sorted one, and the
per-metric functions return the metric with its datapoints so updated.
-/

inductive AggregationTemporality
  | unspecified
  | delta
  | cumulative
  deriving DecidableEq

structure NumberDataPoint where
  attrs : List (String × String)
  timestamp : Nat
  value : Int
  deriving DecidableEq

structure HistogramDataPoint where
  attrs : List (String × String)
  timestamp : Nat
  count : Nat
  hsum : Int
  deriving DecidableEq

structure SummaryDataPoint where
  attrs : List (String × String)
  timestamp : Nat
  count : Nat
  ssum : Int
  deriving DecidableEq

/-- The metric payload: one constructor per `pdata.MetricDataType` handled by
`addMetric`; `none` stands for `MetricDataTypeNone`, the unsupported kind. -/
inductive MetricData
  | gauge (dps : List NumberDataPoint)
  | sum (aggregationTemporality : AggregationTemporality) (isMonotonic : Bool)
      (dps : List NumberDataPoint)
  | histogram (aggregationTemporality : AggregationTemporality)
      (dps : List HistogramDataPoint)
  | summary (dps : List SummaryDataPoint)
  | none
  deriving DecidableEq

structure Metric where
  name : String
  description : String
  unit : String
  data : MetricData
  deriving DecidableEq

/-- `metric.DataType().String()` of pdata. -/
def dataTypeString : MetricData → String
  | .gauge _ => "Gauge"
  | .sum _ _ _ => "Sum"
  | .histogram _ _ => "Histogram"
  | .summary _ => "Summary"
  | .none => "None"

/-- Lexicographic order on strings as lists of characters, by code point.
Go compares strings byte-wise; for valid UTF-8 that order coincides with
code-point order. -/
def strLeb : List Char → List Char → Bool
  | [], _ => true
  | _ :: _, [] => false
  | a :: as, b :: bs =>
    if a.toNat < b.toNat then true
    else if b.toNat < a.toNat then false
    else strLeb as bs

/-- Order on attribute key/value pairs: by key. -/
def keyLe (x y : String × String) : Prop := strLeb x.1.data y.1.data = true

instance keyLeDecidable : DecidableRel keyLe := fun _ _ => Bool.decEq _ _

/-- `pdata.AttributeMap.Sort()`: stable sort of the key/value pairs by key
(`sort.SliceStable` in the source; insertion sort is also stable, so the
result is identical). -/
def sortAttrs (attrs : List (String × String)) : List (String × String) :=
  List.insertionSort keyLe attrs

/-- `timeseriesSignature` from accumulator.go: kind name, scope name, metric
name, then each sorted key/value pair, all separated by `*`.  (The in-place
effect of `attributes.Sort()` is modelled at the call sites.) -/
def timeseriesSignature (ilmName : String) (metric : Metric)
    (attributes : List (String × String)) : String :=
  (sortAttrs attributes).foldl
    (fun b kv => b ++ "*" ++ kv.1 ++ "*" ++ kv.2)
    (dataTypeString metric.data ++ "*" ++ ilmName ++ "*" ++ metric.name)

/-- `m.SetDataType(ty)` installs a fresh, empty payload of the given kind with
all kind-level fields at their protobuf defaults. -/
def emptyData : MetricData → MetricData
  | .gauge _ => .gauge []
  | .sum _ _ _ => .sum .unspecified false []
  | .histogram _ _ => .histogram .unspecified []
  | .summary _ => .summary []
  | .none => .none

/-- `createMetric` from accumulator.go: copy name, description, unit and data
type; the payload starts empty. -/
def createMetric (metric : Metric) : Metric :=
  { name := metric.name, description := metric.description,
    unit := metric.unit, data := emptyData metric.data }

structure AccumulatedValue where
  value : Metric
  updated : Int
  instrumentationLibrary : String
  deriving DecidableEq

/-- `registeredMetrics sync.Map`, as an association list from signature to
`accumulatedValue`. -/
abbrev Store := List (String × AccumulatedValue)

def storeLoad : Store → String → Option AccumulatedValue
  | [], _ => Option.none
  | (k, v) :: rest, sig => if k = sig then some v else storeLoad rest sig

def storePut : Store → String → AccumulatedValue → Store
  | [], sig, av => [(sig, av)]
  | (k, v) :: rest, sig, av =>
    if k = sig then (sig, av) :: rest else (k, v) :: storePut rest sig av

/-- `metric.Gauge().DataPoints()` (empty when the payload is not a gauge). -/
def gaugeDps : MetricData → List NumberDataPoint
  | .gauge dps => dps
  | _ => []

def sumDps : MetricData → List NumberDataPoint
  | .sum _ _ dps => dps
  | _ => []

def histogramDps : MetricData → List HistogramDataPoint
  | .histogram _ dps => dps
  | _ => []

def summaryDps : MetricData → List SummaryDataPoint
  | .summary dps => dps
  | _ => []

/-- `ip.CopyTo(m.Gauge().DataPoints().AppendEmpty())`. -/
def gaugeAppendDataPoint (m : Metric) (ip : NumberDataPoint) : Metric :=
  { m with data := match m.data with
      | .gauge dps => .gauge (dps ++ [ip])
      | d => d }

def sumAppendDataPoint (m : Metric) (ip : NumberDataPoint) : Metric :=
  { m with data := match m.data with
      | .sum t b dps => .sum t b (dps ++ [ip])
      | d => d }

def histogramAppendDataPoint (m : Metric) (ip : HistogramDataPoint) : Metric :=
  { m with data := match m.data with
      | .histogram t dps => .histogram t (dps ++ [ip])
      | d => d }

def summaryAppendDataPoint (m : Metric) (ip : SummaryDataPoint) : Metric :=
  { m with data := match m.data with
      | .summary dps => .summary (dps ++ [ip])
      | d => d }

def sumSetIsMonotonic (m : Metric) (b : Bool) : Metric :=
  { m with data := match m.data with
      | .sum t _ dps => .sum t b dps
      | d => d }

def sumSetAggregationTemporality (m : Metric) (t : AggregationTemporality) :
    Metric :=
  { m with data := match m.data with
      | .sum _ b dps => .sum t b dps
      | d => d }

def histogramSetAggregationTemporality (m : Metric)
    (t : AggregationTemporality) : Metric :=
  { m with data := match m.data with
      | .histogram _ dps => .histogram t dps
      | d => d }

def defaultNumberDataPoint : NumberDataPoint := ⟨[], 0, 0⟩

def defaultHistogramDataPoint : HistogramDataPoint := ⟨[], 0, 0, 0⟩

def defaultSummaryDataPoint : SummaryDataPoint := ⟨[], 0, 0, 0⟩

/-- `mv.value.Gauge().DataPoints().At(0).Timestamp()`: the index-0 read is
total here via a default; the store invariant keeps it in bounds. -/
def firstGaugeTimestamp (m : Metric) : Nat :=
  ((gaugeDps m.data).headD defaultNumberDataPoint).timestamp

def firstSumTimestamp (m : Metric) : Nat :=
  ((sumDps m.data).headD defaultNumberDataPoint).timestamp

def firstHistogramTimestamp (m : Metric) : Nat :=
  ((histogramDps m.data).headD defaultHistogramDataPoint).timestamp

def firstSummaryTimestamp (m : Metric) : Nat :=
  ((summaryDps m.data).headD defaultSummaryDataPoint).timestamp

/-- Loop body of `accumulateGauge`. -/
def accumulateGaugeDataPoint (il : String) (metric : Metric) (now : Int)
    (st : Store) (ip : NumberDataPoint) : Nat × Store × NumberDataPoint :=
  let ip := { ip with attrs := sortAttrs ip.attrs }
  let signature := timeseriesSignature il metric ip.attrs
  match storeLoad st signature with
  | Option.none =>
    let m := gaugeAppendDataPoint (createMetric metric) ip
    (1, storePut st signature ⟨m, now, il⟩, ip)
  | some mv =>
    if ip.timestamp < firstGaugeTimestamp mv.value then
      (0, st, ip)
    else
      let m := gaugeAppendDataPoint (createMetric metric) ip
      (1, storePut st signature ⟨m, now, il⟩, ip)

def accumulateGaugeLoop (il : String) (metric : Metric) (now : Int) :
    Store → List NumberDataPoint → Nat × Store × List NumberDataPoint
  | st, [] => (0, st, [])
  | st, ip :: rest =>
    let s := accumulateGaugeDataPoint il metric now st ip
    let r := accumulateGaugeLoop il metric now s.2.1 rest
    (s.1 + r.1, r.2.1, s.2.2 :: r.2.2)

/-- `accumulateGauge` from accumulator.go. -/
def accumulateGauge (il : String) (metric : Metric) (now : Int) (st : Store) :
    Nat × Store × Metric :=
  match metric.data with
  | .gauge dps =>
    let r := accumulateGaugeLoop il metric now st dps
    (r.1, r.2.1, { metric with data := .gauge r.2.2 })
  | _ => (0, st, metric)

/-- Loop body of `accumulateSum` (only reached when the temporality gate
passed; `isMono` is `metric.Sum().IsMonotonic()`). -/
def accumulateSumDataPoint (il : String) (metric : Metric) (isMono : Bool)
    (now : Int) (st : Store) (ip : NumberDataPoint) :
    Nat × Store × NumberDataPoint :=
  let ip := { ip with attrs := sortAttrs ip.attrs }
  let signature := timeseriesSignature il metric ip.attrs
  match storeLoad st signature with
  | Option.none =>
    let m := createMetric metric
    let m := sumSetIsMonotonic m isMono
    let m := sumSetAggregationTemporality m .cumulative
    let m := sumAppendDataPoint m ip
    (1, storePut st signature ⟨m, now, il⟩, ip)
  | some mv =>
    if ip.timestamp < firstSumTimestamp mv.value then
      (0, st, ip)
    else
      let m := createMetric metric
      let m := sumSetIsMonotonic m isMono
      let m := sumSetAggregationTemporality m .cumulative
      let m := sumAppendDataPoint m ip
      (1, storePut st signature ⟨m, now, il⟩, ip)

def accumulateSumLoop (il : String) (metric : Metric) (isMono : Bool)
    (now : Int) : Store → List NumberDataPoint →
    Nat × Store × List NumberDataPoint
  | st, [] => (0, st, [])
  | st, ip :: rest =>
    let s := accumulateSumDataPoint il metric isMono now st ip
    let r := accumulateSumLoop il metric isMono now s.2.1 rest
    (s.1 + r.1, r.2.1, s.2.2 :: r.2.2)

/-- `accumulateSum` from accumulator.go: metrics whose declared temporality is
not cumulative are dropped wholesale before the loop. -/
def accumulateSum (il : String) (metric : Metric) (now : Int) (st : Store) :
    Nat × Store × Metric :=
  match metric.data with
  | .sum aggTemp isMono dps =>
    if aggTemp ≠ .cumulative then (0, st, metric)
    else
      let r := accumulateSumLoop il metric isMono now st dps
      (r.1, r.2.1, { metric with data := .sum aggTemp isMono r.2.2 })
  | _ => (0, st, metric)

/-- Loop body of `accumulateDoubleHistogram`.  Note: the first-store branch
performs no `SetAggregationTemporality`, exactly as in the source. -/
def accumulateHistogramDataPoint (il : String) (metric : Metric) (now : Int)
    (st : Store) (ip : HistogramDataPoint) :
    Nat × Store × HistogramDataPoint :=
  let ip := { ip with attrs := sortAttrs ip.attrs }
  let signature := timeseriesSignature il metric ip.attrs
  match storeLoad st signature with
  | Option.none =>
    let m := histogramAppendDataPoint (createMetric metric) ip
    (1, storePut st signature ⟨m, now, il⟩, ip)
  | some mv =>
    if ip.timestamp < firstHistogramTimestamp mv.value then
      (0, st, ip)
    else
      let m := histogramAppendDataPoint (createMetric metric) ip
      let m := histogramSetAggregationTemporality m .cumulative
      (1, storePut st signature ⟨m, now, il⟩, ip)

def accumulateHistogramLoop (il : String) (metric : Metric) (now : Int) :
    Store → List HistogramDataPoint → Nat × Store × List HistogramDataPoint
  | st, [] => (0, st, [])
  | st, ip :: rest =>
    let s := accumulateHistogramDataPoint il metric now st ip
    let r := accumulateHistogramLoop il metric now s.2.1 rest
    (s.1 + r.1, r.2.1, s.2.2 :: r.2.2)

/-- `accumulateDoubleHistogram` from accumulator.go. -/
def accumulateDoubleHistogram (il : String) (metric : Metric) (now : Int)
    (st : Store) : Nat × Store × Metric :=
  match metric.data with
  | .histogram aggTemp dps =>
    if aggTemp ≠ .cumulative then (0, st, metric)
    else
      let r := accumulateHistogramLoop il metric now st dps
      (r.1, r.2.1, { metric with data := .histogram aggTemp r.2.2 })
  | _ => (0, st, metric)

/-- Loop body of `accumulateSummary`: a point is stale iff an entry exists and
the incoming timestamp is strictly before the first stored datapoint's. -/
def accumulateSummaryDataPoint (il : String) (metric : Metric) (now : Int)
    (st : Store) (ip : SummaryDataPoint) : Nat × Store × SummaryDataPoint :=
  let ip := { ip with attrs := sortAttrs ip.attrs }
  let signature := timeseriesSignature il metric ip.attrs
  let v := storeLoad st signature
  let stalePoint := match v with
    | Option.none => false
    | some mv => decide (ip.timestamp < firstSummaryTimestamp mv.value)
  if stalePoint then (0, st, ip)
  else
    let mm := summaryAppendDataPoint (createMetric metric) ip
    (1, storePut st signature ⟨mm, now, il⟩, ip)

def accumulateSummaryLoop (il : String) (metric : Metric) (now : Int) :
    Store → List SummaryDataPoint → Nat × Store × List SummaryDataPoint
  | st, [] => (0, st, [])
  | st, ip :: rest =>
    let s := accumulateSummaryDataPoint il metric now st ip
    let r := accumulateSummaryLoop il metric now s.2.1 rest
    (s.1 + r.1, r.2.1, s.2.2 :: r.2.2)

/-- `accumulateSummary` from accumulator.go. -/
def accumulateSummary (il : String) (metric : Metric) (now : Int)
    (st : Store) : Nat × Store × Metric :=
  match metric.data with
  | .summary dps =>
    let r := accumulateSummaryLoop il metric now st dps
    (r.1, r.2.1, { metric with data := .summary r.2.2 })
  | _ => (0, st, metric)

/-- `addMetric` from accumulator.go: the runtime type switch over the metric's
data type; an unhandled kind only logs and returns 0. -/
def addMetric (il : String) (metric : Metric) (now : Int) (st : Store) :
    Nat × Store × Metric :=
  match metric.data with
  | .gauge _ => accumulateGauge il metric now st
  | .sum _ _ _ => accumulateSum il metric now st
  | .histogram _ _ => accumulateDoubleHistogram il metric now st
  | .summary _ => accumulateSummary il metric now st
  | .none => (0, st, metric)

/-- One `pdata.InstrumentationLibraryMetrics`: a scope name and its metrics. -/
structure InstrumentationLibraryMetrics where
  name : String
  metrics : List Metric
  deriving DecidableEq

/-- One `pdata.ResourceMetrics`: the list of producer scopes of a batch. -/
abbrev ResourceMetrics := List InstrumentationLibraryMetrics

/-- Inner loop of `Accumulate`: `n += a.addMetric(metrics.At(j), il, now)`. -/
def accumulateMetrics (il : String) (now : Int) :
    Store → List Metric → Nat × Store × List Metric
  | st, [] => (0, st, [])
  | st, m :: rest =>
    let s := addMetric il m now st
    let r := accumulateMetrics il now s.2.1 rest
    (s.1 + r.1, r.2.1, s.2.2 :: r.2.2)

/-- `Accumulate` from accumulator.go (with `time.Now()` passed in). -/
def Accumulate (now : Int) : Store → ResourceMetrics →
    Nat × Store × ResourceMetrics
  | st, [] => (0, st, [])
  | st, ilm :: rest =>
    let s := accumulateMetrics ilm.name now st ilm.metrics
    let r := Accumulate now s.2.1 rest
    (s.1 + r.1, r.2.1, ⟨ilm.name, s.2.2⟩ :: r.2.2)

/-- `registeredMetrics.Range` body of `Collect`: entries whose `updated` is
strictly before the expiration time are deleted, the others are appended. -/
def collectRange (expirationTime : Int) : Store → List Metric × Store
  | [] => ([], [])
  | (k, v) :: rest =>
    if expirationTime > v.updated then collectRange expirationTime rest
    else
      let r := collectRange expirationTime rest
      (v.value :: r.1, (k, v) :: r.2)

/-- `Collect` from accumulator.go: `expirationTime = now - metricExpiration`;
returns the surviving metrics and the store after the deletions. -/
def Collect (st : Store) (now metricExpiration : Int) : List Metric × Store :=
  collectRange (now - metricExpiration) st

/-- The accumulator's public operations, for stating store invariants over
arbitrary call sequences. -/
inductive Op
  | accumulate (now : Int) (rm : ResourceMetrics)
  | collect (now metricExpiration : Int)

def runOps : List Op → Store → Store
  | [], st => st
  | .accumulate now rm :: rest, st => runOps rest (Accumulate now st rm).2.1
  | .collect now me :: rest, st => runOps rest (Collect st now me).2

/-- Number of datapoints held by a metric's payload. -/
def dpCount (m : Metric) : Nat :=
  match m.data with
  | .gauge d => d.length
  | .sum _ _ d => d.length
  | .histogram _ d => d.length
  | .summary d => d.length
  | .none => 0

/-- Store invariant: signatures are unique and every entry's metric carries
exactly one datapoint. -/
def StoreInv (st : Store) : Prop :=
  (st.map Prod.fst).Nodup ∧ ∀ e ∈ st, dpCount e.2.value = 1

/-- Relation: the second datapoint equals the first with its attribute list
permuted (the in-place effect of `attributes.Sort()`). -/
def NumberDPReorder (d d' : NumberDataPoint) : Prop :=
  d'.attrs.Perm d.attrs ∧ d'.timestamp = d.timestamp ∧ d'.value = d.value

def HistogramDPReorder (d d' : HistogramDataPoint) : Prop :=
  d'.attrs.Perm d.attrs ∧ d'.timestamp = d.timestamp ∧
    d'.count = d.count ∧ d'.hsum = d.hsum

def SummaryDPReorder (d d' : SummaryDataPoint) : Prop :=
  d'.attrs.Perm d.attrs ∧ d'.timestamp = d.timestamp ∧
    d'.count = d.count ∧ d'.ssum = d.ssum

/-- Relation: the second payload equals the first except that each
datapoint's attribute list may be permuted. -/
def DataReorder : MetricData → MetricData → Prop
  | .gauge d, .gauge d' => List.Forall₂ NumberDPReorder d d'
  | .sum t b d, .sum t' b' d' =>
    t' = t ∧ b' = b ∧ List.Forall₂ NumberDPReorder d d'
  | .histogram t d, .histogram t' d' =>
    t' = t ∧ List.Forall₂ HistogramDPReorder d d'
  | .summary d, .summary d' => List.Forall₂ SummaryDPReorder d d'
  | .none, .none => True
  | _, _ => False

def MetricReorder (m m' : Metric) : Prop :=
  m'.name = m.name ∧ m'.description = m.description ∧ m'.unit = m.unit ∧
    DataReorder m.data m'.data

def ScopeReorder (s s' : InstrumentationLibraryMetrics) : Prop :=
  s'.name = s.name ∧ List.Forall₂ MetricReorder s.metrics s'.metrics

/-- A string free of the signature delimiter `*`. -/
def starFree (s : String) : Prop := '*' ∉ s.data

/-- The character contribution of an attribute list to a signature:
`*key*value` for each pair. -/
def sBind (l : List (String × String)) : List Char :=
  l.flatMap (fun kv => '*' :: (kv.1.data ++ '*' :: kv.2.data))

/-! Shared lemmas about the store and attribute sorting. -/

theorem storeLoad_storePut (st : Store) (k sig : String)
    (av : AccumulatedValue) :
    storeLoad (storePut st k av) sig =
      if sig = k then some av else storeLoad st sig := by
  induction st with
  | nil =>
    by_cases h : sig = k
    · simp [storePut, storeLoad, h]
    · simp [storePut, storeLoad, h, Ne.symm h]
  | cons e rest ih =>
    obtain ⟨k0, v0⟩ := e
    by_cases h : k0 = k
    · subst h
      by_cases h2 : sig = k0
      · simp [storePut, storeLoad, h2]
      · simp [storePut, storeLoad, h2, Ne.symm h2]
    · by_cases h2 : k0 = sig
      · subst h2
        simp [storePut, storeLoad, h, Ne.symm h]
      · simp [storePut, storeLoad, h, h2, ih]

theorem strLeb_cons_iff (x y : Char) (xs ys : List Char) :
    strLeb (x :: xs) (y :: ys) = true ↔
      x.toNat < y.toNat ∨ (x.toNat = y.toNat ∧ strLeb xs ys = true) := by
  simp only [strLeb]
  split_ifs with h1 h2
  · simp [h1]
  · simp [h1, h2]
    omega
  · have hxy : x.toNat = y.toNat := by omega
    simp [h1, h2, hxy]

theorem strLeb_total (a b : List Char) :
    strLeb a b = true ∨ strLeb b a = true := by
  induction a generalizing b with
  | nil => left; rfl
  | cons c cs ih =>
    cases b with
    | nil => right; rfl
    | cons d ds =>
      rcases Nat.lt_trichotomy c.toNat d.toNat with h | h | h
      · left; rw [strLeb_cons_iff]; exact Or.inl h
      · rcases ih ds with h2 | h2
        · left; rw [strLeb_cons_iff]; exact Or.inr ⟨h, h2⟩
        · right; rw [strLeb_cons_iff]; exact Or.inr ⟨h.symm, h2⟩
      · right; rw [strLeb_cons_iff]; exact Or.inl h

theorem strLeb_trans (a b c : List Char) (hab : strLeb a b = true)
    (hbc : strLeb b c = true) : strLeb a c = true := by
  induction a generalizing b c with
  | nil => rfl
  | cons x xs ih =>
    cases b with
    | nil => simp [strLeb] at hab
    | cons y ys =>
      cases c with
      | nil => simp [strLeb] at hbc
      | cons z zs =>
        rw [strLeb_cons_iff] at hab hbc ⊢
        rcases hab with h1 | ⟨h1, h1t⟩
        · rcases hbc with h2 | ⟨h2, _⟩
          · exact Or.inl (h1.trans h2)
          · exact Or.inl (h2 ▸ h1)
        · rcases hbc with h2 | ⟨h2, h2t⟩
          · exact Or.inl (h1 ▸ h2)
          · exact Or.inr ⟨h1.trans h2, ih ys zs h1t h2t⟩

theorem strLeb_antisymm (a b : List Char) (hab : strLeb a b = true)
    (hba : strLeb b a = true) : a = b := by
  induction a generalizing b with
  | nil =>
    cases b with
    | nil => rfl
    | cons d ds => simp [strLeb] at hba
  | cons c cs ih =>
    cases b with
    | nil => simp [strLeb] at hab
    | cons d ds =>
      rw [strLeb_cons_iff] at hab hba
      have hcd : c.toNat = d.toNat := by omega
      have hc : c = d := Char.ext (UInt32.ext hcd)
      have htails : strLeb cs ds = true := by
        rcases hab with h | ⟨_, h⟩
        · omega
        · exact h
      have htails2 : strLeb ds cs = true := by
        rcases hba with h | ⟨_, h⟩
        · omega
        · exact h
      rw [hc, ih ds htails htails2]

theorem sortAttrs_perm (l : List (String × String)) : (sortAttrs l).Perm l :=
  List.perm_insertionSort keyLe l

theorem sortAttrs_sorted (l : List (String × String)) :
    List.Sorted keyLe (sortAttrs l) := by
  haveI : IsTotal (String × String) keyLe :=
    ⟨fun a b => strLeb_total a.1.data b.1.data⟩
  haveI : IsTrans (String × String) keyLe :=
    ⟨fun a b c hab hbc => strLeb_trans a.1.data b.1.data c.1.data hab hbc⟩
  exact List.sorted_insertionSort keyLe l

theorem sortAttrs_idem (l : List (String × String)) :
    sortAttrs (sortAttrs l) = sortAttrs l :=
  List.Sorted.insertionSort_eq (sortAttrs_sorted l)

theorem timeseriesSignature_sortAttrs (il : String) (m : Metric)
    (l : List (String × String)) :
    timeseriesSignature il m (sortAttrs l) = timeseriesSignature il m l := by
  unfold timeseriesSignature
  rw [sortAttrs_idem]

/-- C4: a Sum or Histogram metric whose declared aggregation temporality is
not cumulative is rejected whole: `accumulateSum` /
`accumulateDoubleHistogram` return 0, leave the store unchanged (so the
metric also never influences any later `Collect`), no matter how many
datapoints the metric carries. -/
theorem non_cumulative_gate (il nm ds un : String)
    (t : AggregationTemporality) (mono : Bool)
    (dps : List NumberDataPoint) (hdps : List HistogramDataPoint)
    (now now2 me : Int) (st : Store) (ht : t ≠ .cumulative) :
    accumulateSum il ⟨nm, ds, un, .sum t mono dps⟩ now st =
      (0, st, ⟨nm, ds, un, .sum t mono dps⟩) ∧
    accumulateDoubleHistogram il ⟨nm, ds, un, .histogram t hdps⟩ now st =
      (0, st, ⟨nm, ds, un, .histogram t hdps⟩) ∧
    Collect (accumulateSum il ⟨nm, ds, un, .sum t mono dps⟩ now st).2.1
        now2 me = Collect st now2 me ∧
    Collect
        (accumulateDoubleHistogram il ⟨nm, ds, un, .histogram t hdps⟩
          now st).2.1 now2 me = Collect st now2 me := by
  have h1 : accumulateSum il ⟨nm, ds, un, .sum t mono dps⟩ now st =
      (0, st, ⟨nm, ds, un, .sum t mono dps⟩) := by
    simp [accumulateSum, ht]
  have h2 : accumulateDoubleHistogram il ⟨nm, ds, un, .histogram t hdps⟩
      now st = (0, st, ⟨nm, ds, un, .histogram t hdps⟩) := by
    simp [accumulateDoubleHistogram, ht]
  exact ⟨h1, h2, by rw [h1], by rw [h2]⟩

theorem non_cumulative_gate_witness :
    (AggregationTemporality.delta ≠ AggregationTemporality.cumulative) ∧
    (accumulateSum "s" ⟨"m", "", "", .sum .delta true [⟨[], 5, 3⟩]⟩ 0 [] =
       (0, [], ⟨"m", "", "", .sum .delta true [⟨[], 5, 3⟩]⟩) ∧
     accumulateDoubleHistogram "s" ⟨"m", "", "", .histogram .delta [⟨[], 5, 1, 2⟩]⟩ 0 [] =
       (0, [], ⟨"m", "", "", .histogram .delta [⟨[], 5, 1, 2⟩]⟩) ∧
     Collect (accumulateSum "s" ⟨"m", "", "", .sum .delta true [⟨[], 5, 3⟩]⟩ 0 []).2.1 9 1 =
       Collect [] 9 1 ∧
     Collect (accumulateDoubleHistogram "s"
         ⟨"m", "", "", .histogram .delta [⟨[], 5, 1, 2⟩]⟩ 0 []).2.1 9 1 =
       Collect [] 9 1) :=
  ⟨by decide,
   non_cumulative_gate "s" "m" "" "" .delta true [⟨[], 5, 3⟩] [⟨[], 5, 1, 2⟩]
     0 9 1 [] (by decide)⟩

/-- C5: evidence for the divergence: the very first store performed by the
cumulative-histogram merge policy installs a snapshot whose aggregation
temporality is still `unspecified` (the `createMetric` default) — the
first-store branch of `accumulateDoubleHistogram` never calls
`SetAggregationTemporality`, unlike the replacement branch. -/
theorem histogram_first_store_temporality :
    storeLoad
        (accumulateDoubleHistogram "scope"
          ⟨"h", "", "", .histogram .cumulative [⟨[], 5, 1, 2⟩]⟩ 7 []).2.1
        (timeseriesSignature "scope"
          ⟨"h", "", "", .histogram .cumulative [⟨[], 5, 1, 2⟩]⟩ []) =
      some ⟨⟨"h", "", "", .histogram .unspecified [⟨[], 5, 1, 2⟩]⟩, 7, "scope"⟩ ∧
    AggregationTemporality.unspecified ≠ AggregationTemporality.cumulative :=
  ⟨rfl, by decide⟩

/-- C8: `Accumulate` walks every metric of every producer scope, dispatches
each to the merge policy of its kind via `addMetric`, and the returned count
is the sum of the per-metric counts (threading the store left to right); a
metric of the unsupported kind contributes 0 and stores nothing. -/
theorem accumulate_dispatch :
    (∀ il nm ds un d now st,
       addMetric il ⟨nm, ds, un, .gauge d⟩ now st =
         accumulateGauge il ⟨nm, ds, un, .gauge d⟩ now st) ∧
    (∀ il nm ds un t b d now st,
       addMetric il ⟨nm, ds, un, .sum t b d⟩ now st =
         accumulateSum il ⟨nm, ds, un, .sum t b d⟩ now st) ∧
    (∀ il nm ds un t d now st,
       addMetric il ⟨nm, ds, un, .histogram t d⟩ now st =
         accumulateDoubleHistogram il ⟨nm, ds, un, .histogram t d⟩ now st) ∧
    (∀ il nm ds un d now st,
       addMetric il ⟨nm, ds, un, .summary d⟩ now st =
         accumulateSummary il ⟨nm, ds, un, .summary d⟩ now st) ∧
    (∀ il nm ds un now st,
       addMetric il ⟨nm, ds, un, .none⟩ now st =
         (0, st, ⟨nm, ds, un, .none⟩)) ∧
    (∀ il (m : Metric) now st,
       accumulateMetrics il now st [m] =
         ((addMetric il m now st).1, (addMetric il m now st).2.1,
           [(addMetric il m now st).2.2])) ∧
    (∀ il now st ms1 ms2,
       accumulateMetrics il now st (ms1 ++ ms2) =
         ((accumulateMetrics il now st ms1).1 +
            (accumulateMetrics il now
              (accumulateMetrics il now st ms1).2.1 ms2).1,
          (accumulateMetrics il now
            (accumulateMetrics il now st ms1).2.1 ms2).2.1,
          (accumulateMetrics il now st ms1).2.2 ++
            (accumulateMetrics il now
              (accumulateMetrics il now st ms1).2.1 ms2).2.2)) ∧
    (∀ now st rm1 rm2,
       Accumulate now st (rm1 ++ rm2) =
         ((Accumulate now st rm1).1 +
            (Accumulate now (Accumulate now st rm1).2.1 rm2).1,
          (Accumulate now (Accumulate now st rm1).2.1 rm2).2.1,
          (Accumulate now st rm1).2.2 ++
            (Accumulate now (Accumulate now st rm1).2.1 rm2).2.2)) := by
  refine ⟨fun il nm ds un d now st => rfl, fun il nm ds un t b d now st => rfl,
    fun il nm ds un t d now st => rfl, fun il nm ds un d now st => rfl,
    fun il nm ds un now st => rfl, fun il m now st => by
    simp [accumulateMetrics], ?_, ?_⟩
  · intro il now st ms1 ms2
    induction ms1 generalizing st with
    | nil => simp [accumulateMetrics]
    | cons m rest ih =>
      simp [List.cons_append, accumulateMetrics, ih, Nat.add_assoc]
  · intro now st rm1 rm2
    induction rm1 generalizing st with
    | nil => simp [Accumulate]
    | cons ilm rest ih =>
      simp [List.cons_append, Accumulate, ih, Nat.add_assoc]

/-- C1: gauge merge policy: with no entry for the datapoint's signature the
point is stored unconditionally (count 1); with an existing entry it is
stored — wholesale replacing the snapshot — iff its timestamp is not earlier
than the stored datapoint's (count 1), and dropped otherwise (count 0, store
untouched); in particular a second point with an equal timestamp replaces
the first, so ts=100 value=10 followed by ts=100 value=99 stores 99. -/
theorem gauge_merge_policy (il nm ds un : String)
    (dps0 : List NumberDataPoint) (now : Int) (st : Store)
    (ip : NumberDataPoint) :
    (storeLoad st (timeseriesSignature il ⟨nm, ds, un, .gauge dps0⟩ ip.attrs) =
        Option.none →
      accumulateGaugeDataPoint il ⟨nm, ds, un, .gauge dps0⟩ now st ip =
        (1,
         storePut st
           (timeseriesSignature il ⟨nm, ds, un, .gauge dps0⟩ ip.attrs)
           ⟨⟨nm, ds, un, .gauge [{ ip with attrs := sortAttrs ip.attrs }]⟩,
             now, il⟩,
         { ip with attrs := sortAttrs ip.attrs })) ∧
    (∀ mv,
      storeLoad st (timeseriesSignature il ⟨nm, ds, un, .gauge dps0⟩ ip.attrs) =
          some mv →
      (¬ ip.timestamp < firstGaugeTimestamp mv.value →
        accumulateGaugeDataPoint il ⟨nm, ds, un, .gauge dps0⟩ now st ip =
          (1,
           storePut st
             (timeseriesSignature il ⟨nm, ds, un, .gauge dps0⟩ ip.attrs)
             ⟨⟨nm, ds, un, .gauge [{ ip with attrs := sortAttrs ip.attrs }]⟩,
               now, il⟩,
           { ip with attrs := sortAttrs ip.attrs })) ∧
      (ip.timestamp < firstGaugeTimestamp mv.value →
        accumulateGaugeDataPoint il ⟨nm, ds, un, .gauge dps0⟩ now st ip =
          (0, st, { ip with attrs := sortAttrs ip.attrs }))) ∧
    storeLoad
        (accumulateGaugeDataPoint "scope" ⟨"m", "", "", .gauge []⟩ 0
          (accumulateGaugeDataPoint "scope" ⟨"m", "", "", .gauge []⟩ 0 []
            ⟨[], 100, 10⟩).2.1
          ⟨[], 100, 99⟩).2.1
        (timeseriesSignature "scope" ⟨"m", "", "", .gauge []⟩ []) =
      some ⟨⟨"m", "", "", .gauge [⟨[], 100, 99⟩]⟩, 0, "scope"⟩ := by
  have hsig := timeseriesSignature_sortAttrs il ⟨nm, ds, un, .gauge dps0⟩
    ip.attrs
  refine ⟨?_, ?_, by decide⟩
  · intro h
    simp only [accumulateGaugeDataPoint, hsig, h]
    rfl
  · intro mv hmv
    constructor
    · intro hts
      simp only [accumulateGaugeDataPoint, hsig, hmv, if_neg hts]
      rfl
    · intro hts
      simp only [accumulateGaugeDataPoint, hsig, hmv, if_pos hts]

theorem gauge_merge_policy_witness :
    storeLoad ([] : Store)
        (timeseriesSignature "s" ⟨"m", "", "", .gauge []⟩ []) =
      Option.none ∧
    accumulateGaugeDataPoint "s" ⟨"m", "", "", .gauge []⟩ 0 [] ⟨[], 100, 10⟩ =
      (1,
       storePut [] (timeseriesSignature "s" ⟨"m", "", "", .gauge []⟩ [])
         ⟨⟨"m", "", "", .gauge [⟨sortAttrs [], 100, 10⟩]⟩, 0, "s"⟩,
       ⟨sortAttrs [], 100, 10⟩) :=
  ⟨rfl,
   (gauge_merge_policy "s" "m" "" "" [] 0 [] ⟨[], 100, 10⟩).1 rfl⟩

/-- C7: summary merge policy: an incoming summary datapoint is dropped iff
an entry exists for its signature and the incoming timestamp is strictly
earlier than the first stored datapoint's timestamp; in every other case —
including when no entry exists — it is stored, wholesale replacing the
snapshot, and counts 1. -/
theorem summary_merge_policy (il nm ds un : String)
    (dps0 : List SummaryDataPoint) (now : Int) (st : Store)
    (ip : SummaryDataPoint) :
    (storeLoad st (timeseriesSignature il ⟨nm, ds, un, .summary dps0⟩ ip.attrs) =
        Option.none →
      accumulateSummaryDataPoint il ⟨nm, ds, un, .summary dps0⟩ now st ip =
        (1,
         storePut st
           (timeseriesSignature il ⟨nm, ds, un, .summary dps0⟩ ip.attrs)
           ⟨⟨nm, ds, un, .summary [{ ip with attrs := sortAttrs ip.attrs }]⟩,
             now, il⟩,
         { ip with attrs := sortAttrs ip.attrs })) ∧
    (∀ mv,
      storeLoad st
          (timeseriesSignature il ⟨nm, ds, un, .summary dps0⟩ ip.attrs) =
          some mv →
      (¬ ip.timestamp < firstSummaryTimestamp mv.value →
        accumulateSummaryDataPoint il ⟨nm, ds, un, .summary dps0⟩ now st ip =
          (1,
           storePut st
             (timeseriesSignature il ⟨nm, ds, un, .summary dps0⟩ ip.attrs)
             ⟨⟨nm, ds, un, .summary [{ ip with attrs := sortAttrs ip.attrs }]⟩,
               now, il⟩,
           { ip with attrs := sortAttrs ip.attrs })) ∧
      (ip.timestamp < firstSummaryTimestamp mv.value →
        accumulateSummaryDataPoint il ⟨nm, ds, un, .summary dps0⟩ now st ip =
          (0, st, { ip with attrs := sortAttrs ip.attrs }))) := by
  have hsig := timeseriesSignature_sortAttrs il ⟨nm, ds, un, .summary dps0⟩
    ip.attrs
  constructor
  · intro h
    simp only [accumulateSummaryDataPoint, hsig, h]
    rfl
  · intro mv hmv
    constructor
    · intro hts
      simp only [accumulateSummaryDataPoint, hsig, hmv]
      rw [if_neg]
      · rfl
      · simp [hts]
    · intro hts
      simp only [accumulateSummaryDataPoint, hsig, hmv]
      rw [if_pos]
      simp [hts]

theorem summary_merge_policy_witness :
    storeLoad ([] : Store)
        (timeseriesSignature "s" ⟨"q", "", "", .summary []⟩ []) =
      Option.none ∧
    accumulateSummaryDataPoint "s" ⟨"q", "", "", .summary []⟩ 0 []
        ⟨[], 50, 2, 9⟩ =
      (1,
       storePut [] (timeseriesSignature "s" ⟨"q", "", "", .summary []⟩ [])
         ⟨⟨"q", "", "", .summary [⟨sortAttrs [], 50, 2, 9⟩]⟩, 0, "s"⟩,
       ⟨sortAttrs [], 50, 2, 9⟩) :=
  ⟨rfl,
   (summary_merge_policy "s" "q" "" "" [] 0 [] ⟨[], 50, 2, 9⟩).1 rfl⟩

/-! Shape of the per-datapoint steps: each step either leaves the store
untouched or installs a single freshly built snapshot. -/

theorem accumulateSumDataPoint_shape (il nm ds un : String)
    (t : AggregationTemporality) (mono isMono : Bool)
    (dps0 : List NumberDataPoint) (now : Int) (st : Store)
    (ip : NumberDataPoint) :
    accumulateSumDataPoint il ⟨nm, ds, un, .sum t mono dps0⟩ isMono now st ip =
      (0, st, { ip with attrs := sortAttrs ip.attrs }) ∨
    accumulateSumDataPoint il ⟨nm, ds, un, .sum t mono dps0⟩ isMono now st ip =
      (1,
       storePut st
         (timeseriesSignature il ⟨nm, ds, un, .sum t mono dps0⟩
           (sortAttrs ip.attrs))
         ⟨⟨nm, ds, un, .sum .cumulative isMono
             [{ ip with attrs := sortAttrs ip.attrs }]⟩, now, il⟩,
       { ip with attrs := sortAttrs ip.attrs }) := by
  rcases hso : storeLoad st
      (timeseriesSignature il ⟨nm, ds, un, .sum t mono dps0⟩
        (sortAttrs ip.attrs)) with _ | mv
  · right
    simp only [accumulateSumDataPoint, hso]
    rfl
  · by_cases hts : ip.timestamp < firstSumTimestamp mv.value
    · left
      simp only [accumulateSumDataPoint, hso, if_pos hts]
    · right
      simp only [accumulateSumDataPoint, hso, if_neg hts]
      rfl

theorem accumulateSumLoop_load (il nm ds un : String)
    (t : AggregationTemporality) (mono isMono : Bool)
    (dps0 : List NumberDataPoint) (now : Int) :
    ∀ (dps : List NumberDataPoint) (st : Store) (sig : String)
      (v : AccumulatedValue),
      storeLoad
          (accumulateSumLoop il ⟨nm, ds, un, .sum t mono dps0⟩ isMono now st
            dps).2.1 sig = some v →
      storeLoad st sig = some v ∨
      ∃ p, v = ⟨⟨nm, ds, un, .sum .cumulative isMono [p]⟩, now, il⟩ := by
  intro dps
  induction dps with
  | nil => intro st sig v h; exact Or.inl h
  | cons ip rest ih =>
    intro st sig v h
    simp only [accumulateSumLoop] at h
    have h2 := ih _ sig v h
    rcases h2 with h2 | h2
    · rcases accumulateSumDataPoint_shape il nm ds un t mono isMono dps0 now
        st ip with hs | hs
      · rw [hs] at h2
        exact Or.inl h2
      · rw [hs] at h2
        rw [storeLoad_storePut] at h2
        by_cases he : sig =
          timeseriesSignature il ⟨nm, ds, un, .sum t mono dps0⟩
            (sortAttrs ip.attrs)
        · rw [if_pos he] at h2
          refine Or.inr ⟨{ ip with attrs := sortAttrs ip.attrs }, ?_⟩
          exact (Option.some.injEq _ _ ▸ h2).symm
        · rw [if_neg he] at h2
          exact Or.inl h2
    · exact Or.inr h2

/-- C6: every snapshot stored by the cumulative-sum merge policy — whether a
first store or a replacement — carries the monotonic flag copied from the
incoming metric and has its aggregation temporality forced to cumulative:
after `accumulateSum`, any entry of the store is either a pre-existing one or
a single-datapoint sum snapshot with `isMonotonic = mono` and cumulative
temporality. -/
theorem sum_snapshot_fields (il nm ds un : String) (mono : Bool)
    (dps : List NumberDataPoint) (now : Int) (st : Store) (sig : String)
    (v : AccumulatedValue)
    (h : storeLoad
        (accumulateSum il ⟨nm, ds, un, .sum .cumulative mono dps⟩ now
          st).2.1 sig = some v) :
    storeLoad st sig = some v ∨
    ∃ p, v = ⟨⟨nm, ds, un, .sum .cumulative mono [p]⟩, now, il⟩ := by
  simp only [accumulateSum, ne_eq, not_true_eq_false, if_false] at h
  exact accumulateSumLoop_load il nm ds un .cumulative mono mono dps now dps
    st sig v h

theorem sum_snapshot_fields_witness :
    storeLoad
        (accumulateSum "s" ⟨"m", "", "", .sum .cumulative true [⟨[], 5, 3⟩]⟩
          0 []).2.1
        (timeseriesSignature "s"
          ⟨"m", "", "", .sum .cumulative true [⟨[], 5, 3⟩]⟩ []) =
      some ⟨⟨"m", "", "", .sum .cumulative true [⟨[], 5, 3⟩]⟩, 0, "s"⟩ ∧
    (storeLoad ([] : Store)
        (timeseriesSignature "s"
          ⟨"m", "", "", .sum .cumulative true [⟨[], 5, 3⟩]⟩ []) =
      some ⟨⟨"m", "", "", .sum .cumulative true [⟨[], 5, 3⟩]⟩, 0, "s"⟩ ∨
     ∃ p, (⟨⟨"m", "", "", .sum .cumulative true [⟨[], 5, 3⟩]⟩, 0, "s"⟩ :
         AccumulatedValue) =
       ⟨⟨"m", "", "", .sum .cumulative true [p]⟩, 0, "s"⟩) :=
  ⟨rfl,
   sum_snapshot_fields "s" "m" "" "" true [⟨[], 5, 3⟩] 0 [] _ _ rfl⟩

/-! Collect as a filter over the store. -/

theorem collectRange_eq_filter (b : Int) (st : Store) :
    (collectRange b st).2 =
      st.filter (fun e => decide (b ≤ e.2.updated)) ∧
    (collectRange b st).1 =
      ((collectRange b st).2).map (fun e => e.2.value) := by
  induction st with
  | nil => exact ⟨rfl, rfl⟩
  | cons e rest ih =>
    obtain ⟨k, v⟩ := e
    by_cases h : b > v.updated
    · have h2 : ¬ b ≤ v.updated := not_le.mpr h
      simp [collectRange, h, h2, ih.1, ih.2]
    · have h2 : b ≤ v.updated := not_lt.mp h
      simp [collectRange, h, h2, ih.1, ih.2]

theorem storeLoad_eq_none_of_forall (st : Store) (k : String)
    (h : ∀ e ∈ st, e.1 ≠ k) : storeLoad st k = Option.none := by
  induction st with
  | nil => rfl
  | cons e rest ih =>
    obtain ⟨k0, v0⟩ := e
    have h0 : k0 ≠ k := h (k0, v0) (List.mem_cons_self _ _)
    rw [storeLoad, if_neg h0]
    exact ih fun e he => h e (List.mem_cons_of_mem _ he)

theorem storeLoad_filter_none (st : Store) (k : String) (v : AccumulatedValue)
    (p : String × AccumulatedValue → Bool)
    (hnd : (st.map Prod.fst).Nodup)
    (hload : storeLoad st k = some v) (hp : p (k, v) = false) :
    storeLoad (st.filter p) k = Option.none := by
  induction st with
  | nil => cases hload
  | cons e rest ih =>
    obtain ⟨k0, v0⟩ := e
    rw [List.map_cons, List.nodup_cons] at hnd
    by_cases h : k0 = k
    · subst h
      rw [storeLoad, if_pos rfl] at hload
      have hv : v0 = v := by injection hload
      subst hv
      rw [List.filter_cons, if_neg (by simp [hp])]
      apply storeLoad_eq_none_of_forall
      intro e he
      have he2 : e ∈ rest := (List.mem_filter.mp he).1
      intro hek
      have hmm : e.1 ∈ rest.map Prod.fst := List.mem_map_of_mem Prod.fst he2
      rw [hek] at hmm
      exact hnd.1 hmm
    · rw [storeLoad, if_neg h] at hload
      rw [List.filter_cons]
      by_cases hp0 : p (k0, v0) = true
      · rw [if_pos (by simp [hp0])]
        rw [storeLoad, if_neg h]
        exact ih hnd.2 hload
      · rw [if_neg (by simp [hp0])]
        exact ih hnd.2 hload

/-- C3: `Collect` keeps exactly the entries whose last-update time is not
strictly before `now - metricExpiration` (deleting the others from the
store), and returns the kept entries' metrics; a second `Collect` run on the
resulting store, at any time at which no surviving entry has crossed its
expiration, returns the same metrics and leaves the store unchanged; an
entry evicted by the first call cannot be found again. -/
theorem collect_semantics :
    (∀ (st : Store) (now me : Int),
       (Collect st now me).2 =
         st.filter (fun e => decide (now - me ≤ e.2.updated)) ∧
       (Collect st now me).1 =
         ((Collect st now me).2).map (fun e => e.2.value)) ∧
    (∀ (st : Store) (now me now2 : Int),
       (∀ e ∈ (Collect st now me).2, ¬ e.2.updated < now2 - me) →
       Collect (Collect st now me).2 now2 me =
         ((Collect st now me).1, (Collect st now me).2)) ∧
    (∀ (st : Store) (now me : Int) (k : String) (v : AccumulatedValue),
       (st.map Prod.fst).Nodup → storeLoad st k = some v →
       v.updated < now - me →
       storeLoad (Collect st now me).2 k = Option.none) := by
  refine ⟨fun st now me => collectRange_eq_filter (now - me) st, ?_, ?_⟩
  · intro st now me now2 hfresh
    have h1 := collectRange_eq_filter (now - me) st
    have h2 := collectRange_eq_filter (now2 - me) (Collect st now me).2
    have hself : ((Collect st now me).2).filter
        (fun e => decide (now2 - me ≤ e.2.updated)) = (Collect st now me).2 := by
      rw [List.filter_eq_self]
      intro e he
      exact decide_eq_true (not_lt.mp (hfresh e he))
    have hstore : (Collect (Collect st now me).2 now2 me).2 =
        (Collect st now me).2 := by
      rw [show (Collect (Collect st now me).2 now2 me).2 =
        ((Collect st now me).2).filter
          (fun e => decide (now2 - me ≤ e.2.updated)) from h2.1, hself]
    refine Prod.ext ?_ hstore
    rw [show (Collect (Collect st now me).2 now2 me).1 =
      ((Collect (Collect st now me).2 now2 me).2).map (fun e => e.2.value)
      from h2.2, hstore]
    exact (h1.2).symm
  · intro st now me k v hnd hload hexp
    show storeLoad (collectRange (now - me) st).2 k = Option.none
    rw [(collectRange_eq_filter (now - me) st).1]
    exact storeLoad_filter_none st k v _ hnd hload
      (decide_eq_false (not_le.mpr hexp))

theorem collect_semantics_witness :
    (∀ e ∈ (Collect
        [("k", ⟨⟨"m", "", "", .gauge [⟨[], 1, 2⟩]⟩, 10, "s"⟩)] 5 1).2,
       ¬ e.2.updated < 5 - 1) ∧
    Collect
        (Collect [("k", ⟨⟨"m", "", "", .gauge [⟨[], 1, 2⟩]⟩, 10, "s"⟩)]
          5 1).2 5 1 =
      ((Collect [("k", ⟨⟨"m", "", "", .gauge [⟨[], 1, 2⟩]⟩, 10, "s"⟩)]
          5 1).1,
       (Collect [("k", ⟨⟨"m", "", "", .gauge [⟨[], 1, 2⟩]⟩, 10, "s"⟩)]
          5 1).2) :=
  ⟨by decide, collect_semantics.2.1 _ 5 1 5 (by decide)⟩

/-! Preservation of the store invariant. -/

theorem storeLoad_mem (st : Store) (k : String) (v : AccumulatedValue)
    (h : storeLoad st k = some v) : (k, v) ∈ st := by
  induction st with
  | nil => cases h
  | cons e rest ih =>
    obtain ⟨k0, v0⟩ := e
    by_cases hk : k0 = k
    · subst hk
      rw [storeLoad, if_pos rfl] at h
      have : v0 = v := by injection h
      subst this
      exact List.mem_cons_self _ _
    · rw [storeLoad, if_neg hk] at h
      exact List.mem_cons_of_mem _ (ih h)

theorem storePut_cons_self (k0 : String) (v0 av : AccumulatedValue)
    (rest : Store) :
    storePut ((k0, v0) :: rest) k0 av = (k0, av) :: rest := by
  simp [storePut]

theorem storePut_cons_ne (k0 k : String) (v0 av : AccumulatedValue)
    (rest : Store) (h : k0 ≠ k) :
    storePut ((k0, v0) :: rest) k av = (k0, v0) :: storePut rest k av := by
  simp [storePut, h]

theorem storePut_keys_mem (st : Store) (k : String) (av : AccumulatedValue)
    (a : String) :
    a ∈ (storePut st k av).map Prod.fst → a ∈ st.map Prod.fst ∨ a = k := by
  induction st with
  | nil =>
    intro h
    simp only [storePut, List.map_cons, List.map_nil,
      List.mem_singleton] at h
    exact Or.inr h
  | cons e rest ih =>
    obtain ⟨k0, v0⟩ := e
    intro h
    by_cases hk : k0 = k
    · subst hk
      rw [storePut_cons_self, List.map_cons, List.mem_cons] at h
      rcases h with h | h
      · exact Or.inr h
      · exact Or.inl (List.mem_cons_of_mem _ h)
    · rw [storePut_cons_ne k0 k v0 av rest hk, List.map_cons,
        List.mem_cons] at h
      rcases h with h | h
      · exact Or.inl (List.mem_cons.mpr (Or.inl h))
      · rcases ih h with h2 | h2
        · exact Or.inl (List.mem_cons_of_mem _ h2)
        · exact Or.inr h2

theorem storePut_nodup (st : Store) (k : String) (av : AccumulatedValue) :
    (st.map Prod.fst).Nodup → ((storePut st k av).map Prod.fst).Nodup := by
  induction st with
  | nil =>
    intro _
    simp [storePut]
  | cons e rest ih =>
    obtain ⟨k0, v0⟩ := e
    intro h
    rw [List.map_cons, List.nodup_cons] at h
    by_cases hk : k0 = k
    · subst hk
      rw [storePut_cons_self, List.map_cons, List.nodup_cons]
      exact ⟨h.1, h.2⟩
    · rw [storePut_cons_ne k0 k v0 av rest hk, List.map_cons,
        List.nodup_cons]
      refine ⟨?_, ih h.2⟩
      intro hmem
      rcases storePut_keys_mem rest k av k0 hmem with hm | hm
      · exact h.1 hm
      · exact hk hm

theorem storePut_mem (st : Store) (k : String) (av : AccumulatedValue)
    (e : String × AccumulatedValue) :
    e ∈ storePut st k av → e ∈ st ∨ e = (k, av) := by
  induction st with
  | nil =>
    intro h
    simp only [storePut, List.mem_singleton] at h
    exact Or.inr h
  | cons e0 rest ih =>
    obtain ⟨k0, v0⟩ := e0
    intro h
    by_cases hk : k0 = k
    · subst hk
      rw [storePut_cons_self] at h
      rcases List.mem_cons.mp h with h | h
      · exact Or.inr h
      · exact Or.inl (List.mem_cons_of_mem _ h)
    · rw [storePut_cons_ne k0 k v0 av rest hk] at h
      rcases List.mem_cons.mp h with h | h
      · exact Or.inl (h ▸ List.mem_cons_self _ _)
      · rcases ih h with h2 | h2
        · exact Or.inl (List.mem_cons_of_mem _ h2)
        · exact Or.inr h2

theorem StoreInv_storePut (st : Store) (k : String) (av : AccumulatedValue)
    (h : StoreInv st) (hav : dpCount av.value = 1) :
    StoreInv (storePut st k av) := by
  refine ⟨storePut_nodup st k av h.1, ?_⟩
  intro e he
  rcases storePut_mem st k av e he with h2 | h2
  · exact h.2 e h2
  · rw [h2]
    exact hav

theorem gaugeStep_inv (il nm ds un : String) (dps0 : List NumberDataPoint)
    (now : Int) (st : Store) (ip : NumberDataPoint) (h : StoreInv st) :
    StoreInv
      (accumulateGaugeDataPoint il ⟨nm, ds, un, .gauge dps0⟩ now st ip).2.1 := by
  rcases hso : storeLoad st
      (timeseriesSignature il ⟨nm, ds, un, .gauge dps0⟩
        (sortAttrs ip.attrs)) with _ | mv
  · simp only [accumulateGaugeDataPoint, hso]
    exact StoreInv_storePut _ _ _ h rfl
  · by_cases hts : ip.timestamp < firstGaugeTimestamp mv.value
    · simp only [accumulateGaugeDataPoint, hso, if_pos hts]
      exact h
    · simp only [accumulateGaugeDataPoint, hso, if_neg hts]
      exact StoreInv_storePut _ _ _ h rfl

theorem sumStep_inv (il nm ds un : String) (t : AggregationTemporality)
    (mono isMono : Bool) (dps0 : List NumberDataPoint) (now : Int)
    (st : Store) (ip : NumberDataPoint) (h : StoreInv st) :
    StoreInv
      (accumulateSumDataPoint il ⟨nm, ds, un, .sum t mono dps0⟩ isMono now st
        ip).2.1 := by
  rcases accumulateSumDataPoint_shape il nm ds un t mono isMono dps0 now st
    ip with hs | hs
  · rw [hs]
    exact h
  · rw [hs]
    exact StoreInv_storePut _ _ _ h rfl

theorem histogramStep_inv (il nm ds un : String) (t : AggregationTemporality)
    (dps0 : List HistogramDataPoint) (now : Int) (st : Store)
    (ip : HistogramDataPoint) (h : StoreInv st) :
    StoreInv
      (accumulateHistogramDataPoint il ⟨nm, ds, un, .histogram t dps0⟩ now st
        ip).2.1 := by
  rcases hso : storeLoad st
      (timeseriesSignature il ⟨nm, ds, un, .histogram t dps0⟩
        (sortAttrs ip.attrs)) with _ | mv
  · simp only [accumulateHistogramDataPoint, hso]
    exact StoreInv_storePut _ _ _ h rfl
  · by_cases hts : ip.timestamp < firstHistogramTimestamp mv.value
    · simp only [accumulateHistogramDataPoint, hso, if_pos hts]
      exact h
    · simp only [accumulateHistogramDataPoint, hso, if_neg hts]
      exact StoreInv_storePut _ _ _ h rfl

theorem summaryStep_inv (il nm ds un : String) (dps0 : List SummaryDataPoint)
    (now : Int) (st : Store) (ip : SummaryDataPoint) (h : StoreInv st) :
    StoreInv
      (accumulateSummaryDataPoint il ⟨nm, ds, un, .summary dps0⟩ now st
        ip).2.1 := by
  rcases hso : storeLoad st
      (timeseriesSignature il ⟨nm, ds, un, .summary dps0⟩
        (sortAttrs ip.attrs)) with _ | mv
  · simp only [accumulateSummaryDataPoint, hso]
    exact StoreInv_storePut _ _ _ h rfl
  · by_cases hts : ip.timestamp < firstSummaryTimestamp mv.value
    · simp only [accumulateSummaryDataPoint, hso, decide_eq_true hts]
      exact h
    · simp only [accumulateSummaryDataPoint, hso,
        decide_eq_false hts]
      exact StoreInv_storePut _ _ _ h rfl

theorem gaugeLoop_inv (il nm ds un : String) (dps0 : List NumberDataPoint)
    (now : Int) :
    ∀ (dps : List NumberDataPoint) (st : Store), StoreInv st →
      StoreInv
        (accumulateGaugeLoop il ⟨nm, ds, un, .gauge dps0⟩ now st dps).2.1 := by
  intro dps
  induction dps with
  | nil => intro st h; exact h
  | cons ip rest ih =>
    intro st h
    simp only [accumulateGaugeLoop]
    exact ih _ (gaugeStep_inv il nm ds un dps0 now st ip h)

theorem sumLoop_inv (il nm ds un : String) (t : AggregationTemporality)
    (mono isMono : Bool) (dps0 : List NumberDataPoint) (now : Int) :
    ∀ (dps : List NumberDataPoint) (st : Store), StoreInv st →
      StoreInv
        (accumulateSumLoop il ⟨nm, ds, un, .sum t mono dps0⟩ isMono now st
          dps).2.1 := by
  intro dps
  induction dps with
  | nil => intro st h; exact h
  | cons ip rest ih =>
    intro st h
    simp only [accumulateSumLoop]
    exact ih _ (sumStep_inv il nm ds un t mono isMono dps0 now st ip h)

theorem histogramLoop_inv (il nm ds un : String)
    (t : AggregationTemporality) (dps0 : List HistogramDataPoint)
    (now : Int) :
    ∀ (dps : List HistogramDataPoint) (st : Store), StoreInv st →
      StoreInv
        (accumulateHistogramLoop il ⟨nm, ds, un, .histogram t dps0⟩ now st
          dps).2.1 := by
  intro dps
  induction dps with
  | nil => intro st h; exact h
  | cons ip rest ih =>
    intro st h
    simp only [accumulateHistogramLoop]
    exact ih _ (histogramStep_inv il nm ds un t dps0 now st ip h)

theorem summaryLoop_inv (il nm ds un : String)
    (dps0 : List SummaryDataPoint) (now : Int) :
    ∀ (dps : List SummaryDataPoint) (st : Store), StoreInv st →
      StoreInv
        (accumulateSummaryLoop il ⟨nm, ds, un, .summary dps0⟩ now st
          dps).2.1 := by
  intro dps
  induction dps with
  | nil => intro st h; exact h
  | cons ip rest ih =>
    intro st h
    simp only [accumulateSummaryLoop]
    exact ih _ (summaryStep_inv il nm ds un dps0 now st ip h)

theorem addMetric_inv (il : String) (metric : Metric) (now : Int)
    (st : Store) (h : StoreInv st) :
    StoreInv (addMetric il metric now st).2.1 := by
  obtain ⟨nm, ds, un, d⟩ := metric
  cases d with
  | gauge dps =>
    simp only [addMetric, accumulateGauge]
    exact gaugeLoop_inv il nm ds un dps now dps st h
  | sum t mono dps =>
    simp only [addMetric, accumulateSum]
    by_cases ht : t = AggregationTemporality.cumulative
    · simp only [ht, ne_eq, not_true_eq_false, if_false]
      exact sumLoop_inv il nm ds un .cumulative mono mono dps now dps st h
    · simp only [ne_eq, ht, not_false_eq_true, if_true]
      exact h
  | histogram t dps =>
    simp only [addMetric, accumulateDoubleHistogram]
    by_cases ht : t = AggregationTemporality.cumulative
    · simp only [ht, ne_eq, not_true_eq_false, if_false]
      exact histogramLoop_inv il nm ds un .cumulative dps now dps st h
    · simp only [ne_eq, ht, not_false_eq_true, if_true]
      exact h
  | summary dps =>
    simp only [addMetric, accumulateSummary]
    exact summaryLoop_inv il nm ds un dps now dps st h
  | none => exact h

theorem accumulateMetrics_inv (il : String) (now : Int) :
    ∀ (ms : List Metric) (st : Store), StoreInv st →
      StoreInv (accumulateMetrics il now st ms).2.1 := by
  intro ms
  induction ms with
  | nil => intro st h; exact h
  | cons m rest ih =>
    intro st h
    simp only [accumulateMetrics]
    exact ih _ (addMetric_inv il m now st h)

theorem Accumulate_inv (now : Int) :
    ∀ (rm : ResourceMetrics) (st : Store), StoreInv st →
      StoreInv (Accumulate now st rm).2.1 := by
  intro rm
  induction rm with
  | nil => intro st h; exact h
  | cons ilm rest ih =>
    intro st h
    simp only [Accumulate]
    exact ih _ (accumulateMetrics_inv ilm.name now ilm.metrics st h)

theorem collectRange_inv (b : Int) (st : Store) (h : StoreInv st) :
    StoreInv (collectRange b st).2 := by
  rw [(collectRange_eq_filter b st).1]
  constructor
  · exact h.1.sublist ((List.filter_sublist st).map Prod.fst)
  · intro e he
    exact h.2 e (List.mem_filter.mp he).1

theorem runOps_inv : ∀ (ops : List Op) (st : Store), StoreInv st →
    StoreInv (runOps ops st) := by
  intro ops
  induction ops with
  | nil => intro st h; exact h
  | cons op rest ih =>
    intro st h
    cases op with
    | accumulate now rm =>
      exact ih _ (Accumulate_inv now rm st h)
    | collect now me =>
      exact ih _ (collectRange_inv (now - me) st h)

/-- C10: after any sequence of `Accumulate` and `Collect` operations starting
from the empty store, the store has at most one entry per signature and every
entry's metric carries exactly one datapoint; hence whenever a signature
lookup succeeds, the merge policies' index-0 read of the stored datapoint is
in bounds. -/
theorem store_single_datapoint_invariant :
    (∀ ops : List Op, StoreInv (runOps ops [])) ∧
    (∀ (ops : List Op) (sig : String) (v : AccumulatedValue),
       storeLoad (runOps ops []) sig = some v → 0 < dpCount v.value) := by
  have base : StoreInv ([] : Store) :=
    ⟨List.nodup_nil, fun e he => absurd he (List.not_mem_nil e)⟩
  refine ⟨fun ops => runOps_inv ops [] base, ?_⟩
  intro ops sig v h
  have hinv := runOps_inv ops [] base
  have hmem := storeLoad_mem _ _ _ h
  have h2 : dpCount v.value = 1 := hinv.2 _ hmem
  omega

theorem store_single_datapoint_invariant_witness :
    storeLoad
        (runOps
          [Op.accumulate 0 [⟨"s", [⟨"m", "", "", .gauge [⟨[], 3, 7⟩]⟩]⟩]] [])
        (timeseriesSignature "s" ⟨"m", "", "", .gauge [⟨[], 3, 7⟩]⟩ []) =
      some ⟨⟨"m", "", "", .gauge [⟨[], 3, 7⟩]⟩, 0, "s"⟩ ∧
    0 < dpCount
        (⟨⟨"m", "", "", .gauge [⟨[], 3, 7⟩]⟩, 0, "s"⟩ :
          AccumulatedValue).value :=
  ⟨rfl,
   store_single_datapoint_invariant.2
     [Op.accumulate 0 [⟨"s", [⟨"m", "", "", .gauge [⟨[], 3, 7⟩]⟩]⟩]]
     (timeseriesSignature "s" ⟨"m", "", "", .gauge [⟨[], 3, 7⟩]⟩ [])
     ⟨⟨"m", "", "", .gauge [⟨[], 3, 7⟩]⟩, 0, "s"⟩ rfl⟩

/-! C9: the mutation performed on the input batch. -/

theorem gaugeStep_dp (il : String) (metric : Metric) (now : Int) (st : Store)
    (ip : NumberDataPoint) :
    (accumulateGaugeDataPoint il metric now st ip).2.2 =
      { ip with attrs := sortAttrs ip.attrs } := by
  rcases hso : storeLoad st
      (timeseriesSignature il metric (sortAttrs ip.attrs)) with _ | mv
  · simp only [accumulateGaugeDataPoint, hso]
  · by_cases hts : ip.timestamp < firstGaugeTimestamp mv.value
    · simp only [accumulateGaugeDataPoint, hso, if_pos hts]
    · simp only [accumulateGaugeDataPoint, hso, if_neg hts]

theorem sumStep_dp (il : String) (metric : Metric) (isMono : Bool)
    (now : Int) (st : Store) (ip : NumberDataPoint) :
    (accumulateSumDataPoint il metric isMono now st ip).2.2 =
      { ip with attrs := sortAttrs ip.attrs } := by
  rcases hso : storeLoad st
      (timeseriesSignature il metric (sortAttrs ip.attrs)) with _ | mv
  · simp only [accumulateSumDataPoint, hso]
  · by_cases hts : ip.timestamp < firstSumTimestamp mv.value
    · simp only [accumulateSumDataPoint, hso, if_pos hts]
    · simp only [accumulateSumDataPoint, hso, if_neg hts]

theorem histogramStep_dp (il : String) (metric : Metric) (now : Int)
    (st : Store) (ip : HistogramDataPoint) :
    (accumulateHistogramDataPoint il metric now st ip).2.2 =
      { ip with attrs := sortAttrs ip.attrs } := by
  rcases hso : storeLoad st
      (timeseriesSignature il metric (sortAttrs ip.attrs)) with _ | mv
  · simp only [accumulateHistogramDataPoint, hso]
  · by_cases hts : ip.timestamp < firstHistogramTimestamp mv.value
    · simp only [accumulateHistogramDataPoint, hso, if_pos hts]
    · simp only [accumulateHistogramDataPoint, hso, if_neg hts]

theorem summaryStep_dp (il : String) (metric : Metric) (now : Int)
    (st : Store) (ip : SummaryDataPoint) :
    (accumulateSummaryDataPoint il metric now st ip).2.2 =
      { ip with attrs := sortAttrs ip.attrs } := by
  rcases hso : storeLoad st
      (timeseriesSignature il metric (sortAttrs ip.attrs)) with _ | mv
  · simp [accumulateSummaryDataPoint, hso]
  · by_cases hts : ip.timestamp < firstSummaryTimestamp mv.value
    · simp [accumulateSummaryDataPoint, hso, hts]
    · simp [accumulateSummaryDataPoint, hso, hts]

theorem gaugeLoop_dps (il : String) (metric : Metric) (now : Int) :
    ∀ (dps : List NumberDataPoint) (st : Store),
      List.Forall₂ NumberDPReorder dps
        (accumulateGaugeLoop il metric now st dps).2.2 := by
  intro dps
  induction dps with
  | nil => intro st; exact List.Forall₂.nil
  | cons ip rest ih =>
    intro st
    simp only [accumulateGaugeLoop]
    refine List.Forall₂.cons ?_ (ih _)
    rw [gaugeStep_dp]
    exact ⟨sortAttrs_perm _, rfl, rfl⟩

theorem sumLoop_dps (il : String) (metric : Metric) (isMono : Bool)
    (now : Int) :
    ∀ (dps : List NumberDataPoint) (st : Store),
      List.Forall₂ NumberDPReorder dps
        (accumulateSumLoop il metric isMono now st dps).2.2 := by
  intro dps
  induction dps with
  | nil => intro st; exact List.Forall₂.nil
  | cons ip rest ih =>
    intro st
    simp only [accumulateSumLoop]
    refine List.Forall₂.cons ?_ (ih _)
    rw [sumStep_dp]
    exact ⟨sortAttrs_perm _, rfl, rfl⟩

theorem histogramLoop_dps (il : String) (metric : Metric) (now : Int) :
    ∀ (dps : List HistogramDataPoint) (st : Store),
      List.Forall₂ HistogramDPReorder dps
        (accumulateHistogramLoop il metric now st dps).2.2 := by
  intro dps
  induction dps with
  | nil => intro st; exact List.Forall₂.nil
  | cons ip rest ih =>
    intro st
    simp only [accumulateHistogramLoop]
    refine List.Forall₂.cons ?_ (ih _)
    rw [histogramStep_dp]
    exact ⟨sortAttrs_perm _, rfl, rfl, rfl⟩

theorem summaryLoop_dps (il : String) (metric : Metric) (now : Int) :
    ∀ (dps : List SummaryDataPoint) (st : Store),
      List.Forall₂ SummaryDPReorder dps
        (accumulateSummaryLoop il metric now st dps).2.2 := by
  intro dps
  induction dps with
  | nil => intro st; exact List.Forall₂.nil
  | cons ip rest ih =>
    intro st
    simp only [accumulateSummaryLoop]
    refine List.Forall₂.cons ?_ (ih _)
    rw [summaryStep_dp]
    exact ⟨sortAttrs_perm _, rfl, rfl, rfl⟩

theorem MetricReorder_refl (m : Metric) : MetricReorder m m := by
  refine ⟨rfl, rfl, rfl, ?_⟩
  obtain ⟨nm, ds, un, d⟩ := m
  cases d with
  | gauge dps =>
    exact List.forall₂_same.mpr fun a _ => ⟨List.Perm.refl _, rfl, rfl⟩
  | sum t b dps =>
    exact ⟨rfl, rfl,
      List.forall₂_same.mpr fun a _ => ⟨List.Perm.refl _, rfl, rfl⟩⟩
  | histogram t dps =>
    exact ⟨rfl,
      List.forall₂_same.mpr fun a _ => ⟨List.Perm.refl _, rfl, rfl, rfl⟩⟩
  | summary dps =>
    exact List.forall₂_same.mpr fun a _ => ⟨List.Perm.refl _, rfl, rfl, rfl⟩
  | none => exact trivial

theorem addMetric_reorder (il : String) (metric : Metric) (now : Int)
    (st : Store) : MetricReorder metric (addMetric il metric now st).2.2 := by
  obtain ⟨nm, ds, un, d⟩ := metric
  cases d with
  | gauge dps =>
    simp only [addMetric, accumulateGauge]
    exact ⟨rfl, rfl, rfl, gaugeLoop_dps il ⟨nm, ds, un, .gauge dps⟩ now dps st⟩
  | sum t mono dps =>
    simp only [addMetric, accumulateSum]
    by_cases ht : t = AggregationTemporality.cumulative
    · simp only [ht, ne_eq, not_true_eq_false, if_false]
      exact ⟨rfl, rfl, rfl, rfl, rfl,
        sumLoop_dps il ⟨nm, ds, un, .sum .cumulative mono dps⟩ mono now dps st⟩
    · simp only [ne_eq, ht, not_false_eq_true, if_true]
      exact MetricReorder_refl _
  | histogram t dps =>
    simp only [addMetric, accumulateDoubleHistogram]
    by_cases ht : t = AggregationTemporality.cumulative
    · simp only [ht, ne_eq, not_true_eq_false, if_false]
      exact ⟨rfl, rfl, rfl, rfl,
        histogramLoop_dps il ⟨nm, ds, un, .histogram .cumulative dps⟩ now
          dps st⟩
    · simp only [ne_eq, ht, not_false_eq_true, if_true]
      exact MetricReorder_refl _
  | summary dps =>
    simp only [addMetric, accumulateSummary]
    exact ⟨rfl, rfl, rfl,
      summaryLoop_dps il ⟨nm, ds, un, .summary dps⟩ now dps st⟩
  | none => exact MetricReorder_refl _

theorem accumulateMetrics_reorder (il : String) (now : Int) :
    ∀ (ms : List Metric) (st : Store),
      List.Forall₂ MetricReorder ms (accumulateMetrics il now st ms).2.2 := by
  intro ms
  induction ms with
  | nil => intro st; exact List.Forall₂.nil
  | cons m rest ih =>
    intro st
    simp only [accumulateMetrics]
    exact List.Forall₂.cons (addMetric_reorder il m now st) (ih _)

/-- C9 counterexample: `Accumulate` does not leave the batch unmodified —
computing a datapoint's signature sorts its attribute list in place, so a
gauge datapoint whose labels arrive out of key order comes back reordered. -/
theorem accumulate_mutates_input_batch :
    (Accumulate 0 []
        [⟨"s", [⟨"g", "", "", .gauge [⟨[("b", "1"), ("a", "2")], 3, 7⟩]⟩]⟩]).2.2 ≠
      [⟨"s", [⟨"g", "", "", .gauge [⟨[("b", "1"), ("a", "2")], 3, 7⟩]⟩]⟩] := by
  decide

/-- C9 (amended): `Accumulate` leaves every field of the batch unchanged —
scope names, metric names/descriptions/units, kinds, temporalities,
monotonic flags, timestamps and values — except that each processed
datapoint's label list may come back reordered (sorted by key, hence a
permutation of the original); only the internal store changes otherwise. -/
theorem accumulate_label_order_frame (now : Int) (st : Store)
    (rm : ResourceMetrics) :
    List.Forall₂ ScopeReorder rm (Accumulate now st rm).2.2 := by
  induction rm generalizing st with
  | nil => exact List.Forall₂.nil
  | cons ilm rest ih =>
    simp only [Accumulate]
    exact List.Forall₂.cons
      ⟨rfl, accumulateMetrics_reorder ilm.name now ilm.metrics st⟩ (ih _)

/-! C2: decomposition and injectivity of the signature string. -/

theorem attrFold_data (l : List (String × String)) :
    ∀ s : String,
      (l.foldl (fun b kv => b ++ "*" ++ kv.1 ++ "*" ++ kv.2) s).data =
        s.data ++ sBind l := by
  induction l with
  | nil =>
    intro s
    simp [sBind]
  | cons kv rest ih =>
    intro s
    rw [List.foldl_cons, ih]
    show (s ++ "*" ++ kv.1 ++ "*" ++ kv.2).data ++ sBind rest = _
    rw [String.data_append, String.data_append, String.data_append,
      String.data_append]
    have hstar : ("*" : String).data = ['*'] := rfl
    rw [hstar]
    simp [sBind, List.flatMap_cons, List.append_assoc]

theorem timeseriesSignature_data (il : String) (m : Metric)
    (attrs : List (String × String)) :
    (timeseriesSignature il m attrs).data =
      (dataTypeString m.data).data ++ '*' ::
        (il.data ++ '*' :: (m.name.data ++ sBind (sortAttrs attrs))) := by
  unfold timeseriesSignature
  rw [attrFold_data]
  rw [String.data_append, String.data_append, String.data_append,
    String.data_append]
  have hstar : ("*" : String).data = ['*'] := rfl
  rw [hstar]
  simp [List.append_assoc]

theorem append_star_inj (a : List Char) :
    ∀ (b x y : List Char), '*' ∉ a → '*' ∉ b →
      a ++ '*' :: x = b ++ '*' :: y → a = b ∧ x = y := by
  induction a with
  | nil =>
    intro b x y _ hb h
    cases b with
    | nil =>
      simp only [List.nil_append, List.cons.injEq] at h
      exact ⟨rfl, h.2⟩
    | cons c cs =>
      rw [List.nil_append, List.cons_append, List.cons.injEq] at h
      exact absurd (h.1 ▸ List.mem_cons_self c cs) hb
  | cons c cs ih =>
    intro b x y ha hb h
    cases b with
    | nil =>
      rw [List.cons_append, List.nil_append, List.cons.injEq] at h
      exact absurd (h.1 ▸ List.mem_cons_self c cs) ha
    | cons d ds =>
      rw [List.cons_append, List.cons_append, List.cons.injEq] at h
      have ha2 : '*' ∉ cs := fun hm => ha (List.mem_cons_of_mem _ hm)
      have hb2 : '*' ∉ ds := fun hm => hb (List.mem_cons_of_mem _ hm)
      obtain ⟨heq, hx⟩ := ih ds x y ha2 hb2 h.2
      exact ⟨by rw [h.1, heq], hx⟩

theorem append_sBind_inj (l1 : List (String × String)) :
    ∀ (n1 n2 : List Char) (l2 : List (String × String)),
      '*' ∉ n1 → '*' ∉ n2 →
      (∀ kv ∈ l1, starFree kv.1 ∧ starFree kv.2) →
      (∀ kv ∈ l2, starFree kv.1 ∧ starFree kv.2) →
      n1 ++ sBind l1 = n2 ++ sBind l2 → n1 = n2 ∧ l1 = l2 := by
  induction l1 with
  | nil =>
    intro n1 n2 l2 hn1 hn2 _ hl2 h
    cases l2 with
    | nil =>
      simp only [sBind, List.flatMap_nil, List.append_nil] at h
      exact ⟨h, rfl⟩
    | cons kv2 r2 =>
      exfalso
      have h2 : n1 = n2 ++ sBind (kv2 :: r2) := by
        rw [show sBind ([] : List (String × String)) = [] from rfl,
          List.append_nil] at h
        exact h
      have hmem : '*' ∈ n1 := by
        rw [h2]
        refine List.mem_append_right _ ?_
        simp [sBind, List.flatMap_cons]
      exact hn1 hmem
  | cons kv1 r1 ih =>
    intro n1 n2 l2 hn1 hn2 hl1 hl2 h
    cases l2 with
    | nil =>
      exfalso
      have h2 : n2 = n1 ++ sBind (kv1 :: r1) := by
        rw [show sBind ([] : List (String × String)) = [] from rfl,
          List.append_nil] at h
        exact h.symm
      have hmem : '*' ∈ n2 := by
        rw [h2]
        refine List.mem_append_right _ ?_
        simp [sBind, List.flatMap_cons]
      exact hn2 hmem
    | cons kv2 r2 =>
      have e1 : sBind (kv1 :: r1) =
          '*' :: (kv1.1.data ++ ('*' :: (kv1.2.data ++ sBind r1))) := by
        simp [sBind, List.flatMap_cons, List.append_assoc]
      have e2 : sBind (kv2 :: r2) =
          '*' :: (kv2.1.data ++ ('*' :: (kv2.2.data ++ sBind r2))) := by
        simp [sBind, List.flatMap_cons, List.append_assoc]
      rw [e1, e2] at h
      have hk1 := hl1 kv1 (List.mem_cons_self _ _)
      have hk2 := hl2 kv2 (List.mem_cons_self _ _)
      obtain ⟨hn, h2⟩ := append_star_inj n1 n2 _ _ hn1 hn2 h
      obtain ⟨hk, h3⟩ := append_star_inj kv1.1.data kv2.1.data _ _ hk1.1
        hk2.1 h2
      obtain ⟨hv, hr⟩ := ih kv1.2.data kv2.2.data r2 hk1.2 hk2.2
        (fun kv hkv => hl1 kv (List.mem_cons_of_mem _ hkv))
        (fun kv hkv => hl2 kv (List.mem_cons_of_mem _ hkv)) h3
      refine ⟨hn, ?_⟩
      have : kv1 = kv2 := by
        obtain ⟨a1, b1⟩ := kv1
        obtain ⟨a2, b2⟩ := kv2
        simp only [Prod.mk.injEq]
        exact ⟨String.ext hk, String.ext hv⟩
      rw [this, hr]

theorem dataTypeString_starFree (d : MetricData) :
    '*' ∉ (dataTypeString d).data := by
  cases d <;> simp only [dataTypeString] <;> decide

theorem sortAttrs_perm_eq (a1 a2 : List (String × String)) (hp : a1.Perm a2)
    (hnd : (a1.map Prod.fst).Nodup) : sortAttrs a1 = sortAttrs a2 := by
  haveI : IsAntisymm (String × String)
      (fun x y => keyLe x y ∧ ¬ keyLe y x) :=
    ⟨fun a b h1 h2 => absurd h1.1 h2.2⟩
  have hperm : (sortAttrs a1).Perm (sortAttrs a2) :=
    (sortAttrs_perm a1).trans (hp.trans (sortAttrs_perm a2).symm)
  have hnd1 : ((sortAttrs a1).map Prod.fst).Nodup :=
    (((sortAttrs_perm a1).map Prod.fst).nodup_iff).mpr hnd
  have hnd2 : ((sortAttrs a2).map Prod.fst).Nodup := by
    have h2 := ((hp.map Prod.fst).nodup_iff).mp hnd
    exact (((sortAttrs_perm a2).map Prod.fst).nodup_iff).mpr h2
  have hs1 : List.Sorted (fun x y => keyLe x y ∧ ¬ keyLe y x)
      (sortAttrs a1) := by
    have hne : List.Pairwise (fun x y : String × String => x.1 ≠ y.1)
        (sortAttrs a1) := List.pairwise_map.mp hnd1
    exact ((sortAttrs_sorted a1).and hne).imp fun h =>
      ⟨h.1, fun hyx => h.2 (String.ext (strLeb_antisymm _ _ h.1 hyx))⟩
  have hs2 : List.Sorted (fun x y => keyLe x y ∧ ¬ keyLe y x)
      (sortAttrs a2) := by
    have hne : List.Pairwise (fun x y : String × String => x.1 ≠ y.1)
        (sortAttrs a2) := List.pairwise_map.mp hnd2
    exact ((sortAttrs_sorted a2).and hne).imp fun h =>
      ⟨h.1, fun hyx => h.2 (String.ext (strLeb_antisymm _ _ h.1 hyx))⟩
  exact List.eq_of_perm_of_sorted hperm hs1 hs2

/-- C2 is false as stated: two inputs that differ in both the scope name and
the metric name can share a signature, since nothing escapes the `*`
delimiter inside the joined components. -/
theorem timeseriesSignature_collision :
    timeseriesSignature "a*b" ⟨"c", "", "", .gauge []⟩ [] =
      timeseriesSignature "a" ⟨"b*c", "", "", .gauge []⟩ [] ∧
    ("a*b" : String) ≠ "a" ∧ ("c" : String) ≠ "b*c" :=
  ⟨rfl, by decide, by decide⟩

/-- C2 (amended): permuting a label set with unique keys never changes the
signature; when the scope name, metric name and all label keys/values are
free of the `*` delimiter, equal signatures force equal kind, scope, name
and label sets (up to permutation); and two metrics whose kinds differ —
in particular a Gauge and a Sum — never share a signature, regardless of
delimiter content. -/
theorem timeseriesSignature_identity :
    (∀ (il : String) (m : Metric) (a1 a2 : List (String × String)),
       a1.Perm a2 → (a1.map Prod.fst).Nodup →
       timeseriesSignature il m a1 = timeseriesSignature il m a2) ∧
    (∀ (il1 il2 : String) (m1 m2 : Metric)
       (a1 a2 : List (String × String)),
       starFree il1 → starFree il2 → starFree m1.name → starFree m2.name →
       (∀ kv ∈ a1, starFree kv.1 ∧ starFree kv.2) →
       (∀ kv ∈ a2, starFree kv.1 ∧ starFree kv.2) →
       timeseriesSignature il1 m1 a1 = timeseriesSignature il2 m2 a2 →
       dataTypeString m1.data = dataTypeString m2.data ∧ il1 = il2 ∧
         m1.name = m2.name ∧ a1.Perm a2) ∧
    (∀ (il1 il2 : String) (m1 m2 : Metric)
       (a1 a2 : List (String × String)),
       dataTypeString m1.data ≠ dataTypeString m2.data →
       timeseriesSignature il1 m1 a1 ≠ timeseriesSignature il2 m2 a2) ∧
    (∀ (il nm ds1 un1 ds2 un2 : String) (d1 : List NumberDataPoint)
       (t : AggregationTemporality) (b : Bool) (d2 : List NumberDataPoint)
       (a1 a2 : List (String × String)),
       timeseriesSignature il ⟨nm, ds1, un1, .gauge d1⟩ a1 ≠
         timeseriesSignature il ⟨nm, ds2, un2, .sum t b d2⟩ a2) := by
  have hcross : ∀ (il1 il2 : String) (m1 m2 : Metric)
      (a1 a2 : List (String × String)),
      dataTypeString m1.data ≠ dataTypeString m2.data →
      timeseriesSignature il1 m1 a1 ≠ timeseriesSignature il2 m2 a2 := by
    intro il1 il2 m1 m2 a1 a2 hne heq
    apply hne
    have hd := congrArg String.data heq
    rw [timeseriesSignature_data, timeseriesSignature_data] at hd
    exact String.ext (append_star_inj _ _ _ _
      (dataTypeString_starFree m1.data) (dataTypeString_starFree m2.data)
      hd).1
  refine ⟨?_, ?_, hcross, ?_⟩
  · intro il m a1 a2 hp hnd
    unfold timeseriesSignature
    rw [sortAttrs_perm_eq a1 a2 hp hnd]
  · intro il1 il2 m1 m2 a1 a2 hst1 hst2 hstn1 hstn2 hsa1 hsa2 heq
    have hd := congrArg String.data heq
    rw [timeseriesSignature_data, timeseriesSignature_data] at hd
    obtain ⟨hkind, hd2⟩ := append_star_inj _ _ _ _
      (dataTypeString_starFree m1.data) (dataTypeString_starFree m2.data) hd
    obtain ⟨hil, hd3⟩ := append_star_inj _ _ _ _ hst1 hst2 hd2
    have hsa1s : ∀ kv ∈ sortAttrs a1, starFree kv.1 ∧ starFree kv.2 :=
      fun kv hkv => hsa1 kv (((sortAttrs_perm a1).mem_iff).mp hkv)
    have hsa2s : ∀ kv ∈ sortAttrs a2, starFree kv.1 ∧ starFree kv.2 :=
      fun kv hkv => hsa2 kv (((sortAttrs_perm a2).mem_iff).mp hkv)
    obtain ⟨hname, hsorted⟩ := append_sBind_inj (sortAttrs a1)
      m1.name.data m2.name.data (sortAttrs a2) hstn1 hstn2 hsa1s hsa2s hd3
    refine ⟨String.ext hkind, String.ext hil, String.ext hname, ?_⟩
    refine (sortAttrs_perm a1).symm.trans ?_
    rw [hsorted]
    exact sortAttrs_perm a2
  · intro il nm ds1 un1 ds2 un2 d1 t b d2 a1 a2
    refine hcross il il ⟨nm, ds1, un1, .gauge d1⟩ ⟨nm, ds2, un2, .sum t b d2⟩
      a1 a2 ?_
    show ("Gauge" : String) ≠ "Sum"
    decide

theorem timeseriesSignature_identity_witness :
    (([("b", "2"), ("a", "1")] : List (String × String)).Perm
        [("a", "1"), ("b", "2")] ∧
     (([("b", "2"), ("a", "1")] : List (String × String)).map
        Prod.fst).Nodup) ∧
    timeseriesSignature "s" ⟨"m", "", "", .gauge []⟩
        [("b", "2"), ("a", "1")] =
      timeseriesSignature "s" ⟨"m", "", "", .gauge []⟩
        [("a", "1"), ("b", "2")] :=
  ⟨⟨by decide, by decide⟩,
   timeseriesSignature_identity.1 "s" ⟨"m", "", "", .gauge []⟩
     [("b", "2"), ("a", "1")] [("a", "1"), ("b", "2")] (by decide)
     (by decide)⟩
